import Mathlib

/-!
Shallow embedding of the SPNEGO negotiation core of pyspnego.

The authoritative source is `src/spnego/negotiate.py` (class `NegotiateProxy`)
and `src/spnego/auth.py` (`_new_context`).  The collaborating modules
(`_context.py`, `_spnego.py`, `ntlm.py`, `gssapi.py`, `sspi.py`) are not part
of the source tree given here; the pieces of them that the state machine
needs (the `GSSMech` catalogue, the decoded SPNEGO message shapes, and the
backend-context contract) are modelled from the specification and marked as
such in their doc comments.

Machine conventions:
* byte strings are `List Nat`;
* Python `Optional` values are `Option`; Python truthiness of an optional
  byte string (`None` and `b""` are falsy) is the `truthyBytes` predicate;
* a raised exception is an `Option SpnegoError` carried next to the state
  that the mutations performed before the raise have produced, mirroring the
  fact that a Python exception leaves the partial mutations in place;
* backend contexts (`GSSAPIProxy` / `NTLMProxy` instances) are values of an
  abstract type `β` driven through an explicit operations record
  `BackendOps β`, since those classes are outside the given sources.
-/

namespace Spnego

/-- Byte strings as lists of byte values. -/
abbrev Bytes := List Nat

/-- Mechanism OIDs in their dotted-string form. -/
abbrev Oid := String

/-- Python truthiness of an optional byte string: `None` and `b""` are falsy. -/
def truthyBytes : Option Bytes → Bool
  | none => false
  | some t => !t.isEmpty

/-- Python truthiness of an optional OID string: `None` and `""` are falsy. -/
def truthyOid : Option Oid → Bool
  | none => false
  | some s => !s.isEmpty

/-- Modelled from the spec: the `NegState` enumeration of `spnego._spnego`
(not under `src/`), §3 of the spec: the four `neg_state` values of a
`NegTokenResp`. -/
inductive NegState
  | accept_complete
  | accept_incomplete
  | reject
  | request_mic
deriving DecidableEq, Repr

/-- Modelled from the spec: the `GSSMech` catalogue of `spnego._context`
(not under `src/`), §3 of the spec: the three distinguished mechanism OIDs. -/
inductive GSSMech
  | kerberos
  | msKerberos
  | ntlm
deriving DecidableEq, Repr

/-- Dotted OID value of each catalogued mechanism (spec §3). -/
def GSSMech.value : GSSMech → Oid
  | .kerberos => "1.2.840.113554.1.2.2"
  | .msKerberos => "1.2.840.48018.1.2.2"
  | .ntlm => "1.3.6.1.4.1.311.2.2.10"

/-- Modelled from the spec: `GSSMech.from_oid`, the reverse lookup used at
`negotiate.py:290`; an unknown OID is a lookup failure (`ValueError`). -/
def GSSMech.from_oid (oid : Oid) : Option GSSMech :=
  if oid = GSSMech.kerberos.value then some .kerberos
  else if oid = GSSMech.msKerberos.value then some .msKerberos
  else if oid = GSSMech.ntlm.value then some .ntlm
  else none

/-- Modelled from the spec: the helper classifying Kerberos-flavoured OIDs
(spec §3, "A helper classifies whether an OID is any Kerberos flavor"). -/
def GSSMech.is_kerberos_oid : GSSMech → Bool
  | .kerberos => true
  | .msKerberos => true
  | .ntlm => false

/-- Modelled from the spec: the enum-member name of each mechanism, compared
against GSSAPI protocol names at `negotiate.py:306`. -/
def GSSMech.protocolName : GSSMech → String
  | .kerberos => "kerberos"
  | .msKerberos => "ms_kerberos"
  | .ntlm => "ntlm"

/-- Modelled from the spec: a decoded SPNEGO token as produced by
`unpack_neg_token` of `spnego._spnego` (not under `src/`), spec §3.
`init` covers both `NegTokenInit` and `NegTokenInit2` (the state machine at
`negotiate.py:142` treats them identically). -/
inductive NegToken
  | init (mech_types : List Oid) (mech_token : Option Bytes) (mech_list_mic : Option Bytes)
  | resp (neg_state : Option NegState) (supported_mech : Option Oid)
      (response_token : Option Bytes) (mech_list_mic : Option Bytes)
deriving DecidableEq, Repr

/-- An SPNEGO token packed by the output phase (`pack_neg_token_init`,
`pack_neg_token_init2`, `pack_neg_token_resp` of `spnego._spnego`); kept in
structured form rather than DER bytes. -/
inductive OutToken
  | init (mech_types : List Oid) (mech_token : Option Bytes) (mech_list_mic : Option Bytes)
  | init2 (mech_types : List Oid) (mech_token : Option Bytes) (mech_list_mic : Option Bytes)
  | resp (neg_state : NegState) (supported_mech : Option Oid)
      (response_token : Option Bytes) (mech_list_mic : Option Bytes)
deriving DecidableEq, Repr

/-- Errors raised by the negotiation core.  `attributeError` and `indexError`
are the Python `AttributeError` / `IndexError` raised when the context list is
empty where an active context is required. -/
inductive SpnegoError
  | noCommonMechanism
  | negotiationRejected
  | integrityFailure
  | unknownProtocol
  | attributeError
  | indexError
deriving DecidableEq, Repr

/-- Modelled from the spec: `pack_mech_type_list` of `spnego._spnego`
(not under `src/`), a canonical injective encoding of the OID list (spec
§4.3: a DER `SEQUENCE OF OID`).  The MIC phase signs and verifies exactly
these bytes. -/
def pack_mech_type_list (mechList : List Oid) : Bytes :=
  mechList.flatMap (fun s => (s.toList.map Char.toNat) ++ [0])

/-- The `usage` argument of a context: `initiate` or `accept`. -/
inductive Usage
  | initiate
  | accept
deriving DecidableEq, Repr

/-- Modelled from the spec: the backend sub-context contract of spec §4.1
(the `ContextProxy` interface of `spnego._context`, not under `src/`).
A backend context is a value of `β`; each operation returns the updated
backend value.  `verify` returns the updated backend and whether the MIC
checked out (`false` models the `IntegrityFailure` raise). -/
structure BackendOps (β : Type) where
  complete : β → Bool
  step : β → Option Bytes → β × Option Bytes
  requiresMechListMic : β → Bool
  sign : β → Bytes → β × Bytes
  verify : β → Bytes → Bytes → β × Bool
  resetCrypto : β → Bool → β

/-- A sub-context record: `(mech, backend context, cached first token)`,
exactly the tuples stored in `NegotiateProxy._context_list`
(`negotiate.py:68`). -/
abbrev SubContext (β : Type) := GSSMech × β × Option Bytes

/-- The mutable fields of `NegotiateProxy` (`negotiate.py:60`–`75`). -/
structure NegotiateState (β : Type) where
  usage : Usage
  complete : Bool
  contextList : List (SubContext β)
  mechList : List Oid
  initSent : Bool
  mechSent : Bool
  micSent : Bool
  micRecv : Bool
  micRequired : Bool

/-- The per-context environment: the backend operations, the protocol names
advertised by `GSSAPIProxy.available_protocols(context_req)`, the backend
builders used by `_rebuild_context_list`, and the value of the inherited
`self._mech` attribute used for `supported_mech` (`negotiate.py:221`).
`buildGssapi` models `GSSAPIProxy(...)` followed by its first `step`
(`negotiate.py:308`–`311`); `none` models the exception that the loop
catches and skips.  `buildNtlm` models `NTLMProxy(...)` followed by its
first `step` (`negotiate.py:317`–`319`); modelled from the spec, a backend
build may fail (§4.1 `AuthenticationFailed`), and in the NTLM arm the code
has no handler, so the error propagates. -/
structure NegotiateEnv (β : Type) where
  ops : BackendOps β
  gssapiProtocols : List String
  buildGssapi : String → Option Bytes → Option (β × Option Bytes)
  buildNtlm : Option Bytes → Except SpnegoError (β × Option Bytes)
  selfMech : Oid

/-- The fresh state built by `NegotiateProxy.__init__` (`negotiate.py:60`–`75`). -/
def initialState (β : Type) (usage : Usage) : NegotiateState β :=
  { usage := usage
    complete := false
    contextList := []
    mechList := []
    initSent := false
    mechSent := false
    micSent := false
    micRecv := false
    micRequired := false }

/-- The mechanisms locally on offer (`negotiate.py:280`–`283`): the GSSAPI
protocols other than `negotiate`, then `GSSMech.ntlm`, which is always
appended. -/
def availableMechs (gssapiProtocols : List String) : List GSSMech :=
  ((gssapiProtocols.filter (fun p => p ≠ "negotiate")).filterMap
    (fun p => if p = "kerberos" then some GSSMech.kerberos
              else if p = "ntlm" then some GSSMech.ntlm
              else none)) ++ [GSSMech.ntlm]

/-- The intersection step of `_rebuild_context_list` (`negotiate.py:287`–`295`):
keep each offered OID that decodes to a known mech and is locally available
(Kerberos OIDs compare by flavour). -/
def chosenMechs (avail : List GSSMech) (mechList : List Oid) : List GSSMech :=
  mechList.filterMap (fun oid =>
    match GSSMech.from_oid oid with
    | none => none
    | some m =>
      if m ∈ avail ∨ (GSSMech.kerberos ∈ avail ∧ m.is_kerberos_oid) then some m else none)

/-- Result of `_rebuild_context_list`: the value the call returns (`none` when
an exception was raised, in which case the caller's `self._mech_list`
assignment does not happen), the records the loop appended to
`self._context_list` before returning or raising (a Python exception leaves
those appends in place), and the raised error, if any. -/
structure RebuildResult (β : Type) where
  returned : Option (List Oid)
  newContexts : List (SubContext β)
  err : Option SpnegoError
deriving DecidableEq

/-- The construction loop of `_rebuild_context_list` for the `one_required`
case (`negotiate.py:305`–`325` with `one_required = True`): try each chosen
mech in order, skip a GSSAPI backend whose build raises, stop at the first
success; an NTLM build error propagates.  Returns the records to append and
the propagated error, if any. -/
def buildFirstContext (β : Type) (env : NegotiateEnv β) (mechs : List GSSMech)
    (inToken : Option Bytes) : List (SubContext β) × Option SpnegoError :=
  match mechs with
  | [] => ([], none)
  | m :: rest =>
    if m.protocolName ∈ env.gssapiProtocols.filter (fun p => p ≠ "negotiate") then
      match env.buildGssapi m.protocolName inToken with
      | none => buildFirstContext β env rest inToken
      | some (ctx, tok) => ([(m, ctx, tok)], none)
    else
      match env.buildNtlm inToken with
      | .error e => ([], some e)
      | .ok (ctx, tok) => ([(m, ctx, tok)], none)

/-- The construction loop of `_rebuild_context_list` for the local-priority
case (`negotiate.py:305`–`327` with `one_required = False`): build every
chosen mech, skip a GSSAPI backend whose build raises, and collect the OID of
each successfully built mech into the returned mech list.  An NTLM build
error stops the loop, keeping the records already appended. -/
def buildAllContexts (β : Type) (env : NegotiateEnv β) (mechs : List GSSMech)
    (inToken : Option Bytes) : List Oid × List (SubContext β) × Option SpnegoError :=
  match mechs with
  | [] => ([], [], none)
  | m :: rest =>
    if m.protocolName ∈ env.gssapiProtocols.filter (fun p => p ≠ "negotiate") then
      match env.buildGssapi m.protocolName inToken with
      | none => buildAllContexts β env rest inToken
      | some (ctx, tok) =>
        let (oids, ctxs, e) := buildAllContexts β env rest inToken
        (m.value :: oids, (m, ctx, tok) :: ctxs, e)
    else
      match env.buildNtlm inToken with
      | .error e => ([], [], some e)
      | .ok (ctx, tok) =>
        let (oids, ctxs, e) := buildAllContexts β env rest inToken
        (m.value :: oids, (m, ctx, tok) :: ctxs, e)

/-- `NegotiateProxy._rebuild_context_list` (`negotiate.py:277`–`329`).
Given the current `self._mech_list` (the `mech_list` argument; the empty list
is Python-falsy and selects the local-priority branch) and the optional inner
token.  `NoCommonMechanism` is raised exactly when the chosen-mech
intersection is empty, before any backend is built. -/
def rebuild_context_list (β : Type) (env : NegotiateEnv β) (mechList : List Oid)
    (inToken : Option Bytes) : RebuildResult β :=
  let avail := availableMechs env.gssapiProtocols
  if mechList.isEmpty then
    if avail.isEmpty then ⟨none, [], some .noCommonMechanism⟩
    else
      let (oids, ctxs, e) := buildAllContexts β env avail inToken
      match e with
      | some err => ⟨none, ctxs, some err⟩
      | none => ⟨some oids, ctxs, none⟩
  else
    let chosen := chosenMechs avail mechList
    if chosen.isEmpty then ⟨none, [], some .noCommonMechanism⟩
    else
      match buildFirstContext β env chosen inToken with
      | (ctxs, some err) => ⟨none, ctxs, some err⟩
      | (ctxs, none) => ⟨some mechList, ctxs, none⟩

/-- Result of phase 1 (`_step_spnego_input`): the updated state, the
extracted inner token and mechListMIC passed on to phases 2 and 3, and the
raised error, if any.  Errors carry the state the mutations before the raise
produced. -/
structure Phase1Result (β : Type) where
  s : NegotiateState β
  token : Option Bytes
  mic : Option Bytes
  err : Option SpnegoError

/-- `NegotiateProxy._step_spnego_input` (`negotiate.py:133`–`170`).
The input is the decoded token (`unpack_neg_token` is outside this layer);
`none` models a falsy `in_token`.  A `NegTokenInit`/`NegTokenInit2` rebuilds
the context list from the *current* `self._mech_list` and sets `init_sent`;
a `NegTokenResp` records `supported_mech` receipt, raises on a bare
rejection, and handles `request_mic` / `accept_complete`. -/
def step_spnego_input (β : Type) (env : NegotiateEnv β) (s : NegotiateState β)
    (inToken : Option NegToken) : Phase1Result β :=
  match inToken with
  | none =>
    let r := rebuild_context_list β env [] none
    let s1 := { s with contextList := s.contextList ++ r.newContexts }
    match r.err with
    | some e => ⟨s1, none, none, some e⟩
    | none => ⟨{ s1 with mechList := r.returned.getD s1.mechList }, none, none, none⟩
  | some (.init _mt mechToken mic) =>
    let r := rebuild_context_list β env s.mechList mechToken
    let s1 := { s with contextList := s.contextList ++ r.newContexts }
    match r.err with
    | some e => ⟨s1, mechToken, mic, some e⟩
    | none =>
      ⟨{ s1 with mechList := r.returned.getD s1.mechList, initSent := true },
        mechToken, mic, none⟩
  | some (.resp negState supportedMech responseToken mic) =>
    let s1 := if truthyOid supportedMech then { s with mechSent := true } else s
    if negState = some .reject ∧ ¬ truthyBytes responseToken then
      ⟨s1, responseToken, mic, some .negotiationRejected⟩
    else
      let s2 :=
        if negState = some .request_mic then { s1 with micRequired := true }
        else if negState = some .accept_complete then { s1 with complete := true }
        else s1
      ⟨s2, responseToken, mic, none⟩

/-- `NegotiateProxy._step_spnego_token` (`negotiate.py:172`–`188`).
If the active context is incomplete, a (Python-truthy) cached first token is
emitted and its slot cleared without stepping the backend; otherwise the
backend is stepped with the incoming inner token.  Afterwards
`_requires_mech_list_mic` of the active context may set `mic_required`.
An empty context list makes `self._context` `None` and the attribute access
raise. -/
def step_spnego_token (β : Type) (env : NegotiateEnv β) (s : NegotiateState β)
    (inToken : Option Bytes) : NegotiateState β × Option Bytes × Option SpnegoError :=
  match s.contextList with
  | [] => (s, none, some .attributeError)
  | (m, b, cache) :: rest =>
    if env.ops.complete b then (s, none, none)
    else
      let (headCtx, outToken) :=
        if truthyBytes cache then
          ((m, b, (none : Option Bytes)), cache)
        else
          let (b1, out) := env.ops.step b inToken
          ((m, b1, cache), out)
      let s1 := { s with contextList := headCtx :: rest }
      let s2 := if env.ops.requiresMechListMic headCtx.2.1 then { s1 with micRequired := true }
                else s1
      (s2, outToken, none)

/-- Observable crypto events of the MIC phase, used to state that the NTLM
sequence-counter resets happen exactly after the corresponding verify/sign
(`negotiate.py:190`–`207`; `_reset_ntlm_crypto_state` is called nowhere
else in the state machine). -/
inductive MicEvent
  | verified
  | verifyFailed
  | resetIncoming
  | signed
  | resetOutgoing
deriving DecidableEq, Repr

/-- `NegotiateProxy._step_spnego_mic` (`negotiate.py:190`–`207`).
A truthy incoming MIC is verified (failure raises) and the incoming NTLM
crypto state is reset; then, if a MIC is required and not yet sent, the
mech list is signed and the outgoing NTLM crypto state is reset.  The
returned event list records the crypto calls in order. -/
def step_spnego_mic (β : Type) (env : NegotiateEnv β) (s : NegotiateState β)
    (inMic : Option Bytes) :
    NegotiateState β × Option Bytes × List MicEvent × Option SpnegoError :=
  let data := pack_mech_type_list s.mechList
  let afterVerify : NegotiateState β × List MicEvent × Option SpnegoError :=
    if truthyBytes inMic then
      match s.contextList with
      | [] => (s, [], some .attributeError)
      | (m, b, cache) :: rest =>
        let (b1, ok) := env.ops.verify b data ((inMic).getD [])
        if ok then
          let b2 := env.ops.resetCrypto b1 false
          ({ s with contextList := (m, b2, cache) :: rest
                    micRequired := true
                    micRecv := true
                    complete := s.micSent || s.complete },
            [.verified, .resetIncoming], none)
        else
          ({ s with contextList := (m, b1, cache) :: rest }, [.verifyFailed],
            some .integrityFailure)
    else (s, [], none)
  match afterVerify with
  | (s1, evs, some e) => (s1, none, evs, some e)
  | (s1, evs, none) =>
    if s1.micRequired ∧ ¬ s1.micSent then
      match s1.contextList with
      | [] => (s1, none, evs, some .attributeError)
      | (m, b, cache) :: rest =>
        let (b1, micOut) := env.ops.sign b data
        let b2 := env.ops.resetCrypto b1 true
        ({ s1 with contextList := (m, b2, cache) :: rest, micSent := true },
          some micOut, evs ++ [.signed, .resetOutgoing], none)
    else (s1, none, evs, none)

/-- `NegotiateProxy._step_spnego_output` (`negotiate.py:209`–`235`).
Before `init_sent`, pack `NegTokenInit` (initiate) or `NegTokenInit2`
(accept).  Otherwise, while not complete, pack a `NegTokenResp`:
`supported_mech` is attached only on the first such reply (`mech_sent`
latches), and `neg_state` is `request_mic` when the inner context is
complete with `mic_sent ∧ ¬mic_recv`, `accept_complete` (setting
`complete`) when the inner context is complete otherwise, else
`accept_incomplete`. -/
def step_spnego_output (β : Type) (env : NegotiateEnv β) (s : NegotiateState β)
    (outToken : Option Bytes) (outMic : Option Bytes) :
    NegotiateState β × Option OutToken × Option SpnegoError :=
  if ¬ s.initSent then
    let msg := if s.usage = .initiate then OutToken.init s.mechList outToken outMic
               else OutToken.init2 s.mechList outToken outMic
    ({ s with initSent := true }, some msg, none)
  else if ¬ s.complete then
    let (supportedMech, s1) :=
      if ¬ s.mechSent then (some env.selfMech, { s with mechSent := true })
      else (none, s)
    match s1.contextList with
    | [] => (s1, none, some .attributeError)
    | (_, b, _) :: _ =>
      if env.ops.complete b then
        if s1.micSent ∧ ¬ s1.micRecv then
          (s1, some (.resp .request_mic supportedMech outToken outMic), none)
        else
          ({ s1 with complete := true },
            some (.resp .accept_complete supportedMech outToken outMic), none)
      else
        (s1, some (.resp .accept_incomplete supportedMech outToken outMic), none)
  else (s, none, none)

/-- `NegotiateProxy.step` (`negotiate.py:110`–`131`): the four phases in
order, then, when complete, the context list is pruned to its head (an empty
list raises `IndexError` there).  The result is the final state, the emitted
token (none when an exception was raised), and the raised error, if any. -/
def step (β : Type) (env : NegotiateEnv β) (s : NegotiateState β)
    (inToken : Option NegToken) : NegotiateState β × Option OutToken × Option SpnegoError :=
  let p1 := step_spnego_input β env s inToken
  match p1.err with
  | some e => (p1.s, none, some e)
  | none =>
    let (s2, innerOut, e2) := step_spnego_token β env p1.s p1.token
    match e2 with
    | some e => (s2, none, some e)
    | none =>
      let (s3, outMic, _evs, e3) := step_spnego_mic β env s2 p1.mic
      match e3 with
      | some e => (s3, none, some e)
      | none =>
        let (s4, outMsg, e4) := step_spnego_output β env s3 innerOut outMic
        match e4 with
        | some e => (s4, none, some e)
        | none =>
          if s4.complete then
            match s4.contextList with
            | [] => (s4, none, some .indexError)
            | c :: _ => ({ s4 with contextList := [c] }, outMsg, none)
          else (s4, outMsg, none)

/-- Repeated `step` calls, collecting the emitted tokens.  A raised error
leaves the state in place (the caller may keep stepping, as Python would
allow); no token is emitted on an erroring call. -/
def runSteps (β : Type) (env : NegotiateEnv β) (s : NegotiateState β) :
    List (Option NegToken) → NegotiateState β × List OutToken
  | [] => (s, [])
  | i :: is =>
    let (s1, out, _e) := step β env s i
    let (sf, outs) := runSteps β env s1 is
    (sf, out.toList ++ outs)

/-- `NegotiateProxy.available_protocols` (`negotiate.py:77`–`87`):
always `ntlm` and `negotiate`, with `kerberos` inserted at index 0 when the
GSSAPI backend advertises it.  The argument is the list returned by
`GSSAPIProxy.available_protocols(context_req)`. -/
def available_protocols (gssapiProtocols : List String) : List String :=
  if "kerberos" ∈ gssapiProtocols then ["kerberos", "ntlm", "negotiate"]
  else ["ntlm", "negotiate"]

/-- Modelled from the spec: the `use_*` backend-selection bits of
`NegotiateOptions` (`spnego._context`, not under `src/`), spec §4.4; only
which bits are set matters to `_new_context`. -/
structure UseOptions where
  useSspi : Bool
  useGssapi : Bool
  useNegotiate : Bool
  useNtlm : Bool
deriving DecidableEq, Repr

/-- The backend class `_new_context` selects. -/
inductive ProxyKind
  | sspi
  | gssapi
  | negotiate
  | ntlm
deriving DecidableEq, Repr

/-- Python's `str.lower` on the protocol name (`auth.py:30`), character by
character. -/
def lowerStr (s : String) : String := String.mk (s.data.map Char.toLower)

/-- `_new_context` of `auth.py:29`–`57`: the backend selection chain.  The
`sspiProtocols` / `gssapiProtocols` arguments are what the platform
providers advertise for the given `context_req`.  The final `else` raises
the unknown-protocol error. -/
def new_context (sspiProtocols gssapiProtocols : List String) (options : UseOptions)
    (protocol : String) : Except SpnegoError ProxyKind :=
  let proto := lowerStr protocol
  let useSpecified := options.useSspi || options.useGssapi || options.useNegotiate ||
    options.useNtlm
  if options.useSspi || (!useSpecified && proto ∈ sspiProtocols) then .ok .sspi
  else if options.useGssapi ||
      (!useSpecified && (proto = "kerberos" || proto ∈ gssapiProtocols)) then .ok .gssapi
  else if options.useNegotiate || (!useSpecified && proto = "negotiate") then .ok .negotiate
  else if options.useNtlm || (!useSpecified && proto = "ntlm") then .ok .ntlm
  else .error .unknownProtocol

/-- Whether the active sub-context (the head of the context list) reports
complete; `false` when there is no context, as `self._context` is then
`None`. -/
def activeComplete (β : Type) (env : NegotiateEnv β) (s : NegotiateState β) : Bool :=
  match s.contextList with
  | [] => false
  | (_, b, _) :: _ => env.ops.complete b

/-- Whether an emitted token is a `NegTokenResp` carrying `supported_mech`. -/
def isRespWithSupportedMech : OutToken → Bool
  | .resp _ (some _) _ _ => true
  | _ => false

/-- How many emitted tokens carry `supported_mech`. -/
def countSupportedMech (outs : List OutToken) : Nat :=
  outs.countP (fun t => isRespWithSupportedMech t)

/-- The `neg_state` of a decoded input token, when it is a `NegTokenResp`. -/
def negStateOf : Option NegToken → Option NegState
  | some (.resp ns _ _ _) => ns
  | _ => none

/-- Every successful verify of the MIC phase is immediately followed by the
incoming-counter reset, every sign by the outgoing-counter reset, and a
reset occurs in no other position. -/
def resetsFollowCryptoCalls : List MicEvent → Bool
  | [] => true
  | .verified :: .resetIncoming :: rest => resetsFollowCryptoCalls rest
  | .signed :: .resetOutgoing :: rest => resetsFollowCryptoCalls rest
  | .verifyFailed :: rest => resetsFollowCryptoCalls rest
  | _ => false

/-- Backend hypotheses used for the repaired completion invariant, both
modelled from the spec §3 Lifecycle ("becomes `complete` (irreversible)";
`verify` is defined only in `complete`): a successful `verify` implies the
backend is complete, and resetting crypto counters keeps a complete backend
complete. -/
def WellBehaved (β : Type) (ops : BackendOps β) : Prop :=
  (∀ b data mic, (ops.verify b data mic).2 = true → ops.complete (ops.verify b data mic).1 = true) ∧
  (∀ b outgoing, ops.complete b = true → ops.complete (ops.resetCrypto b outgoing) = true)

/-- A small NTLM-like backend over `Nat` states: `0` fresh, `1` after the
first (negotiate) token, `2` (complete) after the authenticate token; it
demands a mech-list MIC after its first token, as NTLM does when the
optimistic mech was not chosen. -/
def ntlmLikeOps : BackendOps Nat :=
  { complete := fun b => b ≥ 2
    step := fun b _ => (b + 1, some [b + 1])
    requiresMechListMic := fun b => b = 1
    sign := fun b _ => (b, [7])
    verify := fun b _ _ => (b, true)
    resetCrypto := fun b _ => b }

/-- Environment with no GSSAPI mechanisms: only the builtin NTLM backend. -/
def ntlmOnlyEnv : NegotiateEnv Nat :=
  { ops := ntlmLikeOps
    gssapiProtocols := []
    buildGssapi := fun _ _ => none
    buildNtlm := fun _ => .ok (1, some [1])
    selfMech := "1.3.6.1.5.5.2" }

/-- A backend that never reports complete and never demands a MIC; used to
exhibit a peer that claims `accept_complete` before the inner handshake is
done. -/
def neverCompleteOps : BackendOps Nat :=
  { ntlmLikeOps with complete := fun _ => false, requiresMechListMic := fun _ => false }

/-- `ntlmOnlyEnv` over the never-complete backend. -/
def neverCompleteEnv : NegotiateEnv Nat :=
  { ntlmOnlyEnv with ops := neverCompleteOps }

/-- A backend that is always complete; trivially well-behaved. -/
def alwaysCompleteOps : BackendOps Nat :=
  { ntlmLikeOps with
      complete := fun _ => true
      step := fun b _ => (b, none)
      requiresMechListMic := fun _ => false }

/-- `ntlmOnlyEnv` over the always-complete backend. -/
def alwaysCompleteEnv : NegotiateEnv Nat :=
  { ntlmOnlyEnv with ops := alwaysCompleteOps }

/-- Environment whose GSSAPI provider advertises only kerberos but whose
kerberos build fails. -/
def kerberosFailsEnv : NegotiateEnv Nat :=
  { ntlmOnlyEnv with
      gssapiProtocols := ["kerberos"]
      buildGssapi := fun _ _ => none
      buildNtlm := fun _ => .ok (0, none) }

/-- C10: for every GSSAPI protocol list, `available_protocols` contains
`ntlm` and `negotiate`, its head is `kerberos` exactly when the GSSAPI
backend advertises kerberos, and the local mechanism set built by
`_rebuild_context_list` always contains the NTLM mechanism. -/
theorem c10_available_protocols (gssapiProtocols : List String) :
    "ntlm" ∈ available_protocols gssapiProtocols ∧
    "negotiate" ∈ available_protocols gssapiProtocols ∧
    ((available_protocols gssapiProtocols).head? = some "kerberos" ↔
      "kerberos" ∈ gssapiProtocols) ∧
    GSSMech.ntlm ∈ availableMechs gssapiProtocols := by
  unfold available_protocols availableMechs
  by_cases h : "kerberos" ∈ gssapiProtocols <;> simp [h]

/-- C9: with no `use_*` option bit set and a protocol (after lowercasing)
outside {kerberos, negotiate, ntlm} that no platform provider advertises,
`_new_context` fails with the unknown-protocol error. -/
theorem c9_unknown_protocol (sspiProtocols gssapiProtocols : List String)
    (protocol : String)
    (hset : lowerStr protocol ∉ (["kerberos", "negotiate", "ntlm"] : List String))
    (hsspi : lowerStr protocol ∉ sspiProtocols)
    (hgssapi : lowerStr protocol ∉ gssapiProtocols) :
    new_context sspiProtocols gssapiProtocols ⟨false, false, false, false⟩ protocol =
      .error .unknownProtocol := by
  simp only [List.mem_cons, List.not_mem_nil, or_false, not_or] at hset
  obtain ⟨hk, hn, hm⟩ := hset
  unfold new_context
  simp [hk, hn, hm, hsspi, hgssapi]

/-- Closed instance of `c9_unknown_protocol` at protocol `"basic"` with no
platform providers. -/
theorem c9_unknown_protocol_witness :
    (lowerStr "basic" ∉ (["kerberos", "negotiate", "ntlm"] : List String)) ∧
    new_context [] [] ⟨false, false, false, false⟩ "basic" = .error .unknownProtocol :=
  ⟨by decide, c9_unknown_protocol [] [] "basic" (by decide) (by decide) (by decide)⟩

/-- C2 (code bug): a two-call initiator run in which the second `step` packs
a `NegTokenResp` with `neg_state = request_mic` — the machine was created
with `usage = initiate`, so the code emits `request_mic` on the initiator
side, contradicting its own FIXME comment at `negotiate.py:228`. -/
theorem c2_initiator_emits_request_mic :
    (initialState Nat .initiate).usage = .initiate ∧
    (runSteps Nat ntlmOnlyEnv (initialState Nat .initiate)
        [none, some (.resp (some .accept_incomplete) none (some [9]) none)]).2 =
      [OutToken.init [GSSMech.ntlm.value] (some [1]) (some [7]),
       OutToken.resp .request_mic (some "1.3.6.1.5.5.2") (some [2]) none] :=
  ⟨rfl, rfl⟩

/-- C1 counterexample: a reachable state (two steps from the initial
initiator state, the second input a `NegTokenResp` with
`neg_state = accept_complete` and no MIC) in which the outer context reports
complete while the active sub-context is not complete — phase 1 sets
`_complete` unconditionally, with no MIC check. -/
theorem c1_counterexample :
    ((runSteps Nat neverCompleteEnv (initialState Nat .initiate)
        [none, some (.resp (some .accept_complete) none none none)]).1.complete = true) ∧
    activeComplete Nat neverCompleteEnv
      (runSteps Nat neverCompleteEnv (initialState Nat .initiate)
        [none, some (.resp (some .accept_complete) none none none)]).1 = false :=
  ⟨rfl, rfl⟩

/-- C3 counterexample: an offered list containing only the Kerberos OID, a
GSSAPI provider advertising kerberos whose build raises: every offered
mechanism is tried and none remains, yet `_rebuild_context_list` returns
normally (no `NoCommonMechanism`) with an empty candidate list. -/
theorem c3_counterexample :
    rebuild_context_list Nat kerberosFailsEnv ["1.2.840.113554.1.2.2"] none =
      ⟨some ["1.2.840.113554.1.2.2"], [], none⟩ :=
  rfl

/-- The inner-token phase raises nothing but `AttributeError`. -/
theorem step_spnego_token_err_range (β : Type) (env : NegotiateEnv β)
    (s : NegotiateState β) (t : Option Bytes) :
    (step_spnego_token β env s t).2.2 = none ∨
    (step_spnego_token β env s t).2.2 = some .attributeError := by
  unfold step_spnego_token
  cases s.contextList with
  | nil => simp
  | cons c rest =>
    obtain ⟨m, b, cache⟩ := c
    by_cases hc : env.ops.complete b <;> simp [hc]

/-- The MIC phase raises nothing but `AttributeError` or `IntegrityFailure`. -/
theorem step_spnego_mic_err_range (β : Type) (env : NegotiateEnv β)
    (s : NegotiateState β) (inMic : Option Bytes) :
    (step_spnego_mic β env s inMic).2.2.2 = none ∨
    (step_spnego_mic β env s inMic).2.2.2 = some .attributeError ∨
    (step_spnego_mic β env s inMic).2.2.2 = some .integrityFailure := by
  unfold step_spnego_mic
  by_cases hm : truthyBytes inMic
  · simp only [hm, if_true]
    cases s.contextList with
    | nil => simp
    | cons c rest =>
      obtain ⟨m, b, cache⟩ := c
      rcases hv : env.ops.verify b (pack_mech_type_list s.mechList) (inMic.getD []) with ⟨b1, ok⟩
      cases ok
      · simp [hv]
      · simp only [hv, if_true]
        split
        · simp
        · simp
  · simp only [hm, Bool.false_eq_true, if_false]
    split
    · cases s.contextList with
      | nil => simp
      | cons c rest => obtain ⟨m, b, cache⟩ := c; simp
    · simp

/-- The output phase raises nothing but `AttributeError`. -/
theorem step_spnego_output_err_range (β : Type) (env : NegotiateEnv β)
    (s : NegotiateState β) (outToken outMic : Option Bytes) :
    (step_spnego_output β env s outToken outMic).2.2 = none ∨
    (step_spnego_output β env s outToken outMic).2.2 = some .attributeError := by
  unfold step_spnego_output
  by_cases hi : s.initSent
  · by_cases hc : s.complete
    · simp [hi, hc]
    · simp only [hi, hc, Bool.true_eq_false, not_true, not_false_iff, if_true, if_false,
        Bool.false_eq_true]
      by_cases hm : s.mechSent
      all_goals
        simp only [hm, Bool.true_eq_false, not_true, not_false_iff, if_true, if_false,
          Bool.false_eq_true]
      all_goals
        cases s.contextList with
        | nil => simp
        | cons c rest =>
          obtain ⟨m, b, cache⟩ := c
          by_cases hcb : env.ops.complete b
          · simp only [hcb, if_true]
            split <;> simp
          · simp [hcb]
  · simp [hi]

/-- Implication form of `step_spnego_token_err_range`. -/
theorem step_token_err_cases (β : Type) (env : NegotiateEnv β) (s : NegotiateState β)
    (t : Option Bytes) (s2 : NegotiateState β) (out2 : Option Bytes) (e2 : Option SpnegoError)
    (h : step_spnego_token β env s t = (s2, out2, e2)) :
    e2 = none ∨ e2 = some .attributeError := by
  have hr := step_spnego_token_err_range β env s t
  rw [h] at hr
  exact hr

/-- Implication form of `step_spnego_mic_err_range`. -/
theorem step_mic_err_cases (β : Type) (env : NegotiateEnv β) (s : NegotiateState β)
    (inMic : Option Bytes) (s3 : NegotiateState β) (m3 : Option Bytes) (evs : List MicEvent)
    (e3 : Option SpnegoError) (h : step_spnego_mic β env s inMic = (s3, m3, evs, e3)) :
    e3 = none ∨ e3 = some .attributeError ∨ e3 = some .integrityFailure := by
  have hr := step_spnego_mic_err_range β env s inMic
  rw [h] at hr
  exact hr

/-- Implication form of `step_spnego_output_err_range`. -/
theorem step_output_err_cases (β : Type) (env : NegotiateEnv β) (s : NegotiateState β)
    (outToken outMic : Option Bytes) (s4 : NegotiateState β) (out4 : Option OutToken)
    (e4 : Option SpnegoError) (h : step_spnego_output β env s outToken outMic = (s4, out4, e4)) :
    e4 = none ∨ e4 = some .attributeError := by
  have hr := step_spnego_output_err_range β env s outToken outMic
  rw [h] at hr
  exact hr

/-- A `NegotiationRejected` result of a full `step` can only originate in
phase 1: phases 2–4 and the final prune raise only `AttributeError`,
`IntegrityFailure` or `IndexError`. -/
theorem step_rejection_from_input (β : Type) (env : NegotiateEnv β)
    (s : NegotiateState β) (i : Option NegToken) :
    (step β env s i).2.2 = some .negotiationRejected →
    (step_spnego_input β env s i).err = some .negotiationRejected := by
  unfold step
  rcases h1 : step_spnego_input β env s i with ⟨s1, tok1, mic1, e1⟩
  cases e1 with
  | some e =>
    intro h
    simpa using h
  | none =>
    intro h
    exfalso
    simp only at h
    rcases h2 : step_spnego_token β env s1 tok1 with ⟨s2, out2, e2⟩
    rw [h2] at h
    rcases step_token_err_cases β env s1 tok1 s2 out2 e2 h2 with he | he <;> subst he
    · simp only at h
      rcases h3 : step_spnego_mic β env s2 mic1 with ⟨s3, mic3, evs3, e3⟩
      rw [h3] at h
      rcases step_mic_err_cases β env s2 mic1 s3 mic3 evs3 e3 h3 with he | he | he <;> subst he
      · simp only at h
        rcases h4 : step_spnego_output β env s3 out2 mic3 with ⟨s4, out4, e4⟩
        rw [h4] at h
        rcases step_output_err_cases β env s3 out2 mic3 s4 out4 e4 h4 with he | he <;> subst he
        · simp only at h
          by_cases hc : s4.complete
          · rw [if_pos hc] at h
            rcases hl : s4.contextList with _ | ⟨c, rest⟩ <;> rw [hl] at h <;> simp at h
          · rw [if_neg hc] at h
            simp at h
        · simp at h
      · simp at h
      · simp at h
    · simp at h

/-- C7: a step whose (decoded) input is a `NegTokenResp` with
`neg_state = reject` raises `NegotiationRejected` exactly when the
`response_token` is absent (Python-falsy); with a (truthy) `response_token`
present the step never raises `NegotiationRejected`. -/
theorem c7_reject (β : Type) (env : NegotiateEnv β) (s : NegotiateState β)
    (sup : Option Oid) (tok : Option Bytes) (mic : Option Bytes) :
    (step β env s (some (.resp (some .reject) sup tok mic))).2.2 =
        some .negotiationRejected ↔
      truthyBytes tok = false := by
  constructor
  · intro h
    have h1 := step_rejection_from_input β env s (some (.resp (some .reject) sup tok mic)) h
    by_cases htok : truthyBytes tok
    · exfalso
      revert h1
      unfold step_spnego_input
      simp [htok]
    · simpa using htok
  · intro htok
    have h1 : step_spnego_input β env s (some (.resp (some .reject) sup tok mic)) =
        ⟨if truthyOid sup = true then { s with mechSent := true } else s, tok, mic,
          some .negotiationRejected⟩ := by
      unfold step_spnego_input
      simp [htok]
    unfold step
    rw [h1]

/-- C5: in the MIC phase of every step, an NTLM crypto-state reset of the
incoming counter occurs exactly immediately after a successful verify of the
received mechListMIC, and a reset of the outgoing counter exactly
immediately after signing the outgoing mechListMIC
(`_reset_ntlm_crypto_state` is invoked nowhere else in the state machine,
and `resetCrypto` appears in no other definition of this development). -/
theorem c5_mic_resets (β : Type) (env : NegotiateEnv β) (s : NegotiateState β)
    (inMic : Option Bytes) :
    resetsFollowCryptoCalls (step_spnego_mic β env s inMic).2.2.1 = true := by
  unfold step_spnego_mic
  by_cases hm : truthyBytes inMic
  · simp only [hm, if_true]
    cases s.contextList with
    | nil => simp [resetsFollowCryptoCalls]
    | cons c rest =>
      obtain ⟨m, b, cache⟩ := c
      rcases hv : env.ops.verify b (pack_mech_type_list s.mechList) (inMic.getD []) with ⟨b1, ok⟩
      cases ok
      · simp [hv, resetsFollowCryptoCalls]
      · simp only [hv, if_true]
        split
        · simp [resetsFollowCryptoCalls]
        · simp [resetsFollowCryptoCalls]
  · simp only [hm, Bool.false_eq_true, if_false]
    split
    · cases s.contextList with
      | nil => simp [resetsFollowCryptoCalls]
      | cons c rest =>
        obtain ⟨m, b, cache⟩ := c
        simp [resetsFollowCryptoCalls]
    · simp [resetsFollowCryptoCalls]

/-- C6: with an incomplete active sub-context, a (truthy) cached first token
is emitted exactly as cached, the cached slot is cleared, and the backend is
not stepped (its value is unchanged); with no truthy cached token the active
backend's `step` is invoked on the incoming inner token. -/
theorem c6_cached_token (β : Type) (env : NegotiateEnv β) (s : NegotiateState β)
    (m : GSSMech) (b : β) (cache : Option Bytes) (rest : List (SubContext β))
    (inTok : Option Bytes)
    (hctx : s.contextList = (m, b, cache) :: rest)
    (hinc : env.ops.complete b = false) :
    (truthyBytes cache = true →
      step_spnego_token β env s inTok =
        (let s1 : NegotiateState β := { s with contextList := (m, b, none) :: rest }
         ((if env.ops.requiresMechListMic b then { s1 with micRequired := true } else s1),
          cache, none))) ∧
    (truthyBytes cache = false →
      step_spnego_token β env s inTok =
        (let b1 := (env.ops.step b inTok).1
         let s1 : NegotiateState β := { s with contextList := (m, b1, cache) :: rest }
         ((if env.ops.requiresMechListMic b1 then { s1 with micRequired := true } else s1),
          (env.ops.step b inTok).2, none))) := by
  constructor
  · intro hcache
    unfold step_spnego_token
    rw [hctx]
    simp [hinc, hcache]
  · intro hcache
    unfold step_spnego_token
    rw [hctx]
    rcases hstep : env.ops.step b inTok with ⟨b1, out⟩
    simp [hinc, hcache, hstep]

/-- Closed instance of `c6_cached_token`: the state reached after the first
initiator step over `ntlmOnlyEnv` holds the cached NTLM negotiate token. -/
theorem c6_cached_token_witness :
    (({ usage := .initiate, complete := false,
        contextList := [(GSSMech.ntlm, 1, some [1])], mechList := [GSSMech.ntlm.value],
        initSent := true, mechSent := false, micSent := false, micRecv := false,
        micRequired := false } : NegotiateState Nat).contextList =
      (GSSMech.ntlm, 1, some [1]) :: []) ∧
    ntlmOnlyEnv.ops.complete 1 = false ∧
    ((truthyBytes (some [1]) = true →
      step_spnego_token Nat ntlmOnlyEnv
        { usage := .initiate, complete := false,
          contextList := [(GSSMech.ntlm, 1, some [1])], mechList := [GSSMech.ntlm.value],
          initSent := true, mechSent := false, micSent := false, micRecv := false,
          micRequired := false } none =
        (let s1 : NegotiateState Nat :=
          { usage := .initiate, complete := false,
            contextList := (GSSMech.ntlm, 1, none) :: [], mechList := [GSSMech.ntlm.value],
            initSent := true, mechSent := false, micSent := false, micRecv := false,
            micRequired := false }
         ((if ntlmOnlyEnv.ops.requiresMechListMic 1 then { s1 with micRequired := true }
           else s1), some [1], none))) ∧
     (truthyBytes (some [1]) = false →
      step_spnego_token Nat ntlmOnlyEnv
        { usage := .initiate, complete := false,
          contextList := [(GSSMech.ntlm, 1, some [1])], mechList := [GSSMech.ntlm.value],
          initSent := true, mechSent := false, micSent := false, micRecv := false,
          micRequired := false } none =
        (let b1 := (ntlmOnlyEnv.ops.step 1 none).1
         let s1 : NegotiateState Nat :=
          { usage := .initiate, complete := false,
            contextList := (GSSMech.ntlm, b1, some [1]) :: [], mechList := [GSSMech.ntlm.value],
            initSent := true, mechSent := false, micSent := false, micRecv := false,
            micRequired := false }
         ((if ntlmOnlyEnv.ops.requiresMechListMic b1 then { s1 with micRequired := true }
           else s1), (ntlmOnlyEnv.ops.step 1 none).2, none)))) :=
  ⟨rfl, by decide,
    c6_cached_token Nat ntlmOnlyEnv
      { usage := .initiate, complete := false,
        contextList := [(GSSMech.ntlm, 1, some [1])], mechList := [GSSMech.ntlm.value],
        initSent := true, mechSent := false, micSent := false, micRecv := false,
        micRequired := false }
      GSSMech.ntlm 1 (some [1]) [] none rfl (by decide)⟩

/-- Phase 1 sets `complete` only on an input `NegTokenResp` with
`neg_state = accept_complete`; otherwise `complete` is untouched. -/
theorem input_complete_cases (β : Type) (env : NegotiateEnv β) (s : NegotiateState β)
    (i : Option NegToken) :
    (step_spnego_input β env s i).s.complete = s.complete ∨
    (negStateOf i = some .accept_complete ∧ (step_spnego_input β env s i).s.complete = true) := by
  unfold step_spnego_input
  cases i with
  | none =>
    dsimp only
    split <;> simp
  | some t =>
    cases t with
    | init mt tok mic =>
      dsimp only
      split <;> simp
    | resp ns sup tok mic =>
      dsimp only
      by_cases hsup : truthyOid sup <;>
        simp only [hsup, Bool.false_eq_true, if_true, if_false] <;>
        split <;>
        (try simp) <;>
        split <;>
        (try simp) <;>
        split <;>
        simp_all [negStateOf]

/-- Phase 1 never changes `micSent` or `micRecv`, and never changes
`initSent`, `usage` or `mechList` except for the init-branch updates to
`mechList`/`initSent`; here we record the MIC flags and `usage`. -/
theorem input_preserves_mic_flags (β : Type) (env : NegotiateEnv β) (s : NegotiateState β)
    (i : Option NegToken) :
    (step_spnego_input β env s i).s.micSent = s.micSent ∧
    (step_spnego_input β env s i).s.micRecv = s.micRecv ∧
    (step_spnego_input β env s i).s.usage = s.usage := by
  unfold step_spnego_input
  cases i with
  | none =>
    dsimp only
    split <;> simp
  | some t =>
    cases t with
    | init mt tok mic =>
      dsimp only
      split <;> simp
    | resp ns sup tok mic =>
      dsimp only
      by_cases hsup : truthyOid sup <;>
        simp only [hsup, Bool.false_eq_true, if_true, if_false] <;>
        split <;>
        (try simp) <;>
        split <;>
        (try simp) <;>
        split <;>
        simp_all

/-- Phase 1 never clears `mechSent`. -/
theorem input_mechSent_mono (β : Type) (env : NegotiateEnv β) (s : NegotiateState β)
    (i : Option NegToken) (h : s.mechSent = true) :
    (step_spnego_input β env s i).s.mechSent = true := by
  unfold step_spnego_input
  cases i with
  | none =>
    dsimp only
    split <;> simp [h]
  | some t =>
    cases t with
    | init mt tok mic =>
      dsimp only
      split <;> simp [h]
    | resp ns sup tok mic =>
      dsimp only
      by_cases hsup : truthyOid sup <;>
        simp only [hsup, Bool.false_eq_true, if_true, if_false] <;>
        split <;>
        (try simp [h]) <;>
        split <;>
        (try simp [h]) <;>
        split <;>
        simp_all

/-- Receiving a truthy `supported_mech` in a `NegTokenResp` latches
`mech_sent` (`negotiate.py:153`–`155`). -/
theorem input_sup_sets_mechSent (β : Type) (env : NegotiateEnv β) (s : NegotiateState β)
    (ns : Option NegState) (sup : Option Oid) (tok mic : Option Bytes)
    (h : truthyOid sup = true) :
    (step_spnego_input β env s (some (.resp ns sup tok mic))).s.mechSent = true := by
  unfold step_spnego_input
  dsimp only
  simp only [h, if_true]
  split <;>
    (try simp) <;>
    split <;>
    (try simp) <;>
    split <;>
    simp_all

/-- Phase 2 changes only the context list and possibly `micRequired`. -/
theorem token_preserves_fields (β : Type) (env : NegotiateEnv β) (s : NegotiateState β)
    (t : Option Bytes) :
    (step_spnego_token β env s t).1.complete = s.complete ∧
    (step_spnego_token β env s t).1.micSent = s.micSent ∧
    (step_spnego_token β env s t).1.micRecv = s.micRecv ∧
    (step_spnego_token β env s t).1.mechSent = s.mechSent ∧
    (step_spnego_token β env s t).1.initSent = s.initSent ∧
    (step_spnego_token β env s t).1.usage = s.usage ∧
    (step_spnego_token β env s t).1.mechList = s.mechList := by
  unfold step_spnego_token
  cases s.contextList with
  | nil => simp
  | cons c rest =>
    obtain ⟨m, b, cache⟩ := c
    by_cases hc : env.ops.complete b
    · simp [hc]
    · simp only [hc, Bool.false_eq_true, if_true, if_false]
      by_cases hcache : truthyBytes cache
      · simp only [hcache, if_true]
        split <;> simp
      · simp only [hcache, Bool.false_eq_true, if_false]
        rcases hstep : env.ops.step b t with ⟨b1, out⟩
        simp only [hstep]
        split <;> simp

/-- Phase 3 changes neither `mechSent`, `initSent`, `usage` nor `mechList`. -/
theorem mic_preserves_fields (β : Type) (env : NegotiateEnv β) (s : NegotiateState β)
    (inMic : Option Bytes) :
    (step_spnego_mic β env s inMic).1.mechSent = s.mechSent ∧
    (step_spnego_mic β env s inMic).1.initSent = s.initSent ∧
    (step_spnego_mic β env s inMic).1.usage = s.usage ∧
    (step_spnego_mic β env s inMic).1.mechList = s.mechList := by
  unfold step_spnego_mic
  by_cases hm : truthyBytes inMic
  · simp only [hm, if_true]
    cases s.contextList with
    | nil => simp
    | cons c rest =>
      obtain ⟨m, b, cache⟩ := c
      rcases hv : env.ops.verify b (pack_mech_type_list s.mechList) (inMic.getD []) with ⟨b1, ok⟩
      cases ok
      · simp [hv]
      · simp only [hv, if_true]
        split
        · simp
        · simp
  · simp only [hm, Bool.false_eq_true, if_false]
    split
    · cases s.contextList with
      | nil => simp
      | cons c rest => obtain ⟨m, b, cache⟩ := c; simp
    · simp

/-- Phase 3 never clears `complete`. -/
theorem mic_complete_mono (β : Type) (env : NegotiateEnv β) (s : NegotiateState β)
    (inMic : Option Bytes) (h : s.complete = true) :
    (step_spnego_mic β env s inMic).1.complete = true := by
  unfold step_spnego_mic
  by_cases hm : truthyBytes inMic
  · simp only [hm, if_true]
    cases s.contextList with
    | nil => simp [h]
    | cons c rest =>
      obtain ⟨m, b, cache⟩ := c
      rcases hv : env.ops.verify b (pack_mech_type_list s.mechList) (inMic.getD []) with ⟨b1, ok⟩
      cases ok
      · simp [hv, h]
      · simp only [hv, if_true]
        split
        · simp [h]
        · simp [h]
  · simp only [hm, Bool.false_eq_true, if_false]
    split
    · cases s.contextList with
      | nil => simp [h]
      | cons c rest => obtain ⟨m, b, cache⟩ := c; simp [h]
    · simp [h]

/-- Phase 3 never clears `micSent`. -/
theorem mic_micSent_mono (β : Type) (env : NegotiateEnv β) (s : NegotiateState β)
    (inMic : Option Bytes) (h : s.micSent = true) :
    (step_spnego_mic β env s inMic).1.micSent = true := by
  unfold step_spnego_mic
  by_cases hm : truthyBytes inMic
  · simp only [hm, if_true]
    cases s.contextList with
    | nil => simp [h]
    | cons c rest =>
      obtain ⟨m, b, cache⟩ := c
      rcases hv : env.ops.verify b (pack_mech_type_list s.mechList) (inMic.getD []) with ⟨b1, ok⟩
      cases ok
      · simp [hv, h]
      · simp only [hv, if_true]
        split
        · simp [h]
        · simp [h]
  · simp only [hm, Bool.false_eq_true, if_false]
    split
    · cases s.contextList with
      | nil => simp [h]
      | cons c rest => obtain ⟨m, b, cache⟩ := c; simp [h]
    · simp [h]

/-- After an error-free phase 3, a required MIC has been sent: the sign
branch fires exactly when `mic_required ∧ ¬mic_sent`. -/
theorem mic_required_implies_sent (β : Type) (env : NegotiateEnv β) (s : NegotiateState β)
    (inMic : Option Bytes) (herr : (step_spnego_mic β env s inMic).2.2.2 = none)
    (hreq : (step_spnego_mic β env s inMic).1.micRequired = true) :
    (step_spnego_mic β env s inMic).1.micSent = true := by
  revert herr hreq
  unfold step_spnego_mic
  by_cases hm : truthyBytes inMic
  · simp only [hm, if_true]
    cases s.contextList with
    | nil => simp
    | cons c rest =>
      obtain ⟨m, b, cache⟩ := c
      rcases hv : env.ops.verify b (pack_mech_type_list s.mechList) (inMic.getD []) with ⟨b1, ok⟩
      cases ok
      · simp [hv]
      · simp only [hv, if_true]
        split <;> rename_i hcond
        · simp
        · intro herr hreq
          by_cases hs : s.micSent = true
          · exact hs
          · exfalso
            exact hcond ⟨by trivial, by simpa using hs⟩
  · simp only [hm, Bool.false_eq_true, if_false]
    split <;> rename_i hcond
    · cases s.contextList with
      | nil => simp
      | cons c rest => obtain ⟨m, b, cache⟩ := c; simp
    · intro herr hreq
      by_cases hs : s.micSent = true
      · exact hs
      · exfalso
        exact hcond ⟨hreq, by simpa using hs⟩

/-- With a well-behaved backend, an error-free phase 3 that ends complete
either started complete or completed through MIC verification, in which case
the active sub-context is complete and both MIC flags are set. -/
theorem mic_complete_sources (β : Type) (env : NegotiateEnv β) (s : NegotiateState β)
    (inMic : Option Bytes) (hwb : WellBehaved β env.ops)
    (herr : (step_spnego_mic β env s inMic).2.2.2 = none)
    (hcomp : (step_spnego_mic β env s inMic).1.complete = true) :
    s.complete = true ∨
    (activeComplete β env (step_spnego_mic β env s inMic).1 = true ∧
     (step_spnego_mic β env s inMic).1.micSent = true ∧
     (step_spnego_mic β env s inMic).1.micRecv = true) := by
  revert herr hcomp
  unfold step_spnego_mic
  by_cases hm : truthyBytes inMic
  · simp only [hm, if_true]
    cases hl : s.contextList with
    | nil => simp
    | cons c rest =>
      obtain ⟨m, b, cache⟩ := c
      rcases hv : env.ops.verify b (pack_mech_type_list s.mechList) (inMic.getD []) with ⟨b1, ok⟩
      cases ok
      · simp [hv]
      · simp only [hv, if_true]
        have hb1 : env.ops.complete b1 = true := by
          have h2 := hwb.1 b (pack_mech_type_list s.mechList) (inMic.getD [])
          rw [hv] at h2
          exact h2 rfl
        have hb2 : env.ops.complete (env.ops.resetCrypto b1 false) = true := hwb.2 b1 false hb1
        split <;> rename_i hcond
        · intro herr hcomp
          left
          have hms : s.micSent = false := by
            rcases hcond with ⟨h1, h2⟩
            simpa using h2
          simpa [hms] using hcomp
        · intro herr hcomp
          by_cases hsc : s.complete = true
          · exact Or.inl hsc
          · right
            have hms : s.micSent = true := by
              by_contra hms
              exact hcond ⟨by trivial, by simpa using hms⟩
            refine ⟨?_, by simpa using hms, by simp⟩
            simp [activeComplete, hb2]
  · simp only [hm, Bool.false_eq_true, if_false]
    split <;> rename_i hcond
    · cases s.contextList with
      | nil => simp
      | cons c rest =>
        obtain ⟨m, b, cache⟩ := c
        intro herr hcomp
        exact Or.inl (by simpa using hcomp)
    · intro herr hcomp
      exact Or.inl hcomp

/-- Phase 4 changes neither the context list, the MIC flags, `usage` nor
`mechList`. -/
theorem output_preserves_fields (β : Type) (env : NegotiateEnv β) (s : NegotiateState β)
    (outToken outMic : Option Bytes) :
    (step_spnego_output β env s outToken outMic).1.contextList = s.contextList ∧
    (step_spnego_output β env s outToken outMic).1.micSent = s.micSent ∧
    (step_spnego_output β env s outToken outMic).1.micRecv = s.micRecv ∧
    (step_spnego_output β env s outToken outMic).1.micRequired = s.micRequired ∧
    (step_spnego_output β env s outToken outMic).1.usage = s.usage ∧
    (step_spnego_output β env s outToken outMic).1.mechList = s.mechList := by
  unfold step_spnego_output
  by_cases hi : s.initSent
  · by_cases hc : s.complete
    · simp [hi, hc]
    · simp only [hi, hc, Bool.true_eq_false, not_true, not_false_iff, if_true, if_false,
        Bool.false_eq_true]
      by_cases hms : s.mechSent
      all_goals
        simp only [hms, Bool.true_eq_false, not_true, not_false_iff, if_true, if_false,
          Bool.false_eq_true]
      all_goals
        cases hl : s.contextList with
        | nil => simp [hl]
        | cons c rest =>
          obtain ⟨m, b, cache⟩ := c
          by_cases hcb : env.ops.complete b
          · simp only [hcb, if_true]
            split <;> simp [hl]
          · simp [hcb, hl]
  · simp [hi]

/-- Phase 4 never clears `complete`. -/
theorem output_complete_mono (β : Type) (env : NegotiateEnv β) (s : NegotiateState β)
    (outToken outMic : Option Bytes) (h : s.complete = true) :
    (step_spnego_output β env s outToken outMic).1.complete = true := by
  unfold step_spnego_output
  by_cases hi : s.initSent
  · simp [hi, h]
  · simp [hi, h]

/-- An error-free phase 4 that ends complete either started complete or
completed through the `accept_complete` emission, which requires a complete
active sub-context and `mic_sent → mic_recv`. -/
theorem output_complete_sources (β : Type) (env : NegotiateEnv β) (s : NegotiateState β)
    (outToken outMic : Option Bytes)
    (hcomp : (step_spnego_output β env s outToken outMic).1.complete = true) :
    s.complete = true ∨
    (activeComplete β env s = true ∧ (s.micSent = true → s.micRecv = true)) := by
  revert hcomp
  unfold step_spnego_output
  by_cases hi : s.initSent
  · by_cases hc : s.complete
    · simp [hi, hc]
    · simp only [hi, hc, Bool.true_eq_false, not_true, not_false_iff, if_true, if_false,
        Bool.false_eq_true]
      by_cases hms : s.mechSent
      all_goals
        simp only [hms, Bool.true_eq_false, not_true, not_false_iff, if_true, if_false,
          Bool.false_eq_true]
      all_goals
        cases hl : s.contextList with
        | nil => simp [hc]
        | cons c rest =>
          obtain ⟨m, b, cache⟩ := c
          by_cases hcb : env.ops.complete b
          · simp only [hcb, if_true]
            split <;> rename_i hmic
            · simp [hc]
            · intro hcomp
              right
              constructor
              · simp [activeComplete, hl, hcb]
              · intro hsent
                by_contra hrecv
                exact hmic ⟨hsent, by simpa using hrecv⟩
          · simp [hcb, hc]
  · simp only [hi, Bool.false_eq_true, not_false_iff, if_true]
    intro hcomp
    exact Or.inl hcomp

/-- Phase 4 never clears `mechSent`. -/
theorem output_mechSent_mono (β : Type) (env : NegotiateEnv β) (s : NegotiateState β)
    (outToken outMic : Option Bytes) (h : s.mechSent = true) :
    (step_spnego_output β env s outToken outMic).1.mechSent = true := by
  unfold step_spnego_output
  by_cases hi : s.initSent
  · by_cases hc : s.complete
    · simp [hi, hc, h]
    · simp only [hi, hc, h, Bool.true_eq_false, not_true, not_false_iff, if_true, if_false,
        Bool.false_eq_true]
      cases s.contextList with
      | nil => simp [h]
      | cons c rest =>
        obtain ⟨m, b, cache⟩ := c
        by_cases hcb : env.ops.complete b
        · simp only [hcb, if_true]
          split <;> simp [h]
        · simp [hcb, h]
  · simp [hi, h]

/-- Phase 4 emits a `NegTokenResp` carrying `supported_mech` only when
`mech_sent` was clear, and doing so latches `mech_sent`. -/
theorem output_sup_emission (β : Type) (env : NegotiateEnv β) (s : NegotiateState β)
    (outToken outMic : Option Bytes) (o : OutToken)
    (hout : (step_spnego_output β env s outToken outMic).2.1 = some o)
    (hsup : isRespWithSupportedMech o = true) :
    s.mechSent = false ∧ (step_spnego_output β env s outToken outMic).1.mechSent = true := by
  revert hout
  unfold step_spnego_output
  by_cases hi : s.initSent
  · by_cases hc : s.complete
    · simp [hi, hc]
    · simp only [hi, hc, Bool.true_eq_false, not_true, not_false_iff, if_true, if_false,
        Bool.false_eq_true]
      by_cases hms : s.mechSent
      all_goals
        simp only [hms, Bool.true_eq_false, not_true, not_false_iff, if_true, if_false,
          Bool.false_eq_true]
      all_goals
        cases s.contextList with
        | nil => simp
        | cons c rest =>
          obtain ⟨m, b, cache⟩ := c
          by_cases hcb : env.ops.complete b
          · simp only [hcb, if_true]
            split <;> rename_i hmic <;> intro hout <;>
              simp only [Option.some_inj] at hout <;> subst hout <;>
              simp_all [isRespWithSupportedMech]
          · simp only [hcb, Bool.false_eq_true, if_false]
            intro hout
            simp only [Option.some_inj] at hout
            subst hout
            simp_all [isRespWithSupportedMech]
  · simp only [hi, Bool.false_eq_true, not_false_iff, if_true]
    intro hout
    exfalso
    revert hout
    split <;> intro hout <;> simp only [Option.some_inj] at hout <;> subst hout <;>
      simp_all [isRespWithSupportedMech]

/-- An erroring phase 3 leaves `complete` unchanged. -/
theorem mic_err_complete (β : Type) (env : NegotiateEnv β) (s : NegotiateState β)
    (inMic : Option Bytes) (e : SpnegoError)
    (herr : (step_spnego_mic β env s inMic).2.2.2 = some e) :
    (step_spnego_mic β env s inMic).1.complete = s.complete := by
  revert herr
  unfold step_spnego_mic
  by_cases hm : truthyBytes inMic
  · simp only [hm, if_true]
    cases s.contextList with
    | nil => simp
    | cons c rest =>
      obtain ⟨m, b, cache⟩ := c
      rcases hv : env.ops.verify b (pack_mech_type_list s.mechList) (inMic.getD []) with ⟨b1, ok⟩
      cases ok
      · simp [hv]
      · simp only [hv, if_true]
        split
        · simp
        · simp
  · simp only [hm, Bool.false_eq_true, if_false]
    split
    · cases s.contextList with
      | nil => simp
      | cons c rest => obtain ⟨m, b, cache⟩ := c; simp
    · simp

/-- An erroring phase 4 happened in the not-complete branch, and left
`complete` clear. -/
theorem output_err_not_complete (β : Type) (env : NegotiateEnv β) (s : NegotiateState β)
    (outToken outMic : Option Bytes) (e : SpnegoError)
    (herr : (step_spnego_output β env s outToken outMic).2.2 = some e) :
    s.complete = false ∧ (step_spnego_output β env s outToken outMic).1.complete = false := by
  revert herr
  unfold step_spnego_output
  by_cases hi : s.initSent
  · by_cases hc : s.complete
    · simp [hi, hc]
    · simp only [hi, hc, Bool.true_eq_false, not_true, not_false_iff, if_true, if_false,
        Bool.false_eq_true]
      by_cases hms : s.mechSent
      all_goals
        simp only [hms, Bool.true_eq_false, not_true, not_false_iff, if_true, if_false,
          Bool.false_eq_true]
      all_goals
        cases s.contextList with
        | nil => intro herr; exact ⟨by simpa using hc, by simpa using hc⟩
        | cons c rest =>
          obtain ⟨m, b, cache⟩ := c
          by_cases hcb : env.ops.complete b
          · simp only [hcb, if_true]
            split <;> simp
          · simp [hcb]
  · simp [hi]

/-- `activeComplete` depends only on the context list. -/
theorem activeComplete_congr (β : Type) (env : NegotiateEnv β)
    (s t : NegotiateState β) (h : s.contextList = t.contextList) :
    activeComplete β env s = activeComplete β env t := by
  unfold activeComplete
  rw [h]

/-- One full `step` never clears `complete`, also on erroring calls. -/
theorem step_complete_mono (β : Type) (env : NegotiateEnv β) (s : NegotiateState β)
    (i : Option NegToken) (h : s.complete = true) :
    (step β env s i).1.complete = true := by
  unfold step
  rcases h1 : step_spnego_input β env s i with ⟨s1, tok1, mic1, e1⟩
  have hc1 : s1.complete = true := by
    rcases input_complete_cases β env s i with hx | hx
    · rw [h1] at hx
      simpa [h] using hx
    · rw [h1] at hx
      simpa using hx.2
  cases e1 with
  | some e => simpa using hc1
  | none =>
    simp only
    rcases h2 : step_spnego_token β env s1 tok1 with ⟨s2, out2, e2⟩
    have hc2 : s2.complete = true := by
      have hx := (token_preserves_fields β env s1 tok1).1
      rw [h2] at hx
      simpa [hc1] using hx
    cases e2 with
    | some e => simpa using hc2
    | none =>
      simp only
      rcases h3 : step_spnego_mic β env s2 mic1 with ⟨s3, mic3, evs3, e3⟩
      have hc3 : s3.complete = true := by
        have hx := mic_complete_mono β env s2 mic1 hc2
        rw [h3] at hx
        simpa using hx
      cases e3 with
      | some e => simpa using hc3
      | none =>
        simp only
        rcases h4 : step_spnego_output β env s3 out2 mic3 with ⟨s4, out4, e4⟩
        have hc4 : s4.complete = true := by
          have hx := output_complete_mono β env s3 out2 mic3 hc3
          rw [h4] at hx
          simpa using hx
        cases e4 with
        | some e => simpa using hc4
        | none =>
          simp only [hc4, if_true]
          cases s4.contextList with
          | nil => simpa using hc4
          | cons c rest => simpa using hc4

/-- C8: over any sequence of subsequent `step` calls (with arbitrary inputs,
erroring calls included), a completed state machine stays complete: no
transition of `NegotiateProxy` resets `_complete` to `False`. -/
theorem c8_complete_irreversible (β : Type) (env : NegotiateEnv β)
    (s : NegotiateState β) (inputs : List (Option NegToken)) (h : s.complete = true) :
    (runSteps β env s inputs).1.complete = true := by
  induction inputs generalizing s with
  | nil => simpa using h
  | cons i is ih =>
    unfold runSteps
    rcases hs : step β env s i with ⟨s1, out1, e1⟩
    have hc1 : s1.complete = true := by
      have hx := step_complete_mono β env s i h
      rw [hs] at hx
      simpa using hx
    simpa using ih s1 hc1

/-- Closed instance of `c8_complete_irreversible`: a completed machine
stepped twice more (one empty input, one rejection) is still complete. -/
theorem c8_complete_irreversible_witness :
    ({ initialState Nat .initiate with complete := true } : NegotiateState Nat).complete = true ∧
    (runSteps Nat ntlmOnlyEnv { initialState Nat .initiate with complete := true }
      [none, some (.resp (some .reject) none none none)]).1.complete = true :=
  ⟨rfl, c8_complete_irreversible Nat ntlmOnlyEnv
    { initialState Nat .initiate with complete := true }
    [none, some (.resp (some .reject) none none none)] rfl⟩

/-- If `mech_sent` holds after phase 1, it holds after the full step. -/
theorem step_mechSent_latch (β : Type) (env : NegotiateEnv β) (s : NegotiateState β)
    (i : Option NegToken) (h : (step_spnego_input β env s i).s.mechSent = true) :
    (step β env s i).1.mechSent = true := by
  unfold step
  rcases h1 : step_spnego_input β env s i with ⟨s1, tok1, mic1, e1⟩
  rw [h1] at h
  simp only at h
  cases e1 with
  | some e => simpa using h
  | none =>
    simp only
    rcases h2 : step_spnego_token β env s1 tok1 with ⟨s2, out2, e2⟩
    have hm2 : s2.mechSent = true := by
      have hx := (token_preserves_fields β env s1 tok1).2.2.2.1
      rw [h2] at hx
      simpa [h] using hx
    cases e2 with
    | some e => simpa using hm2
    | none =>
      simp only
      rcases h3 : step_spnego_mic β env s2 mic1 with ⟨s3, mic3, evs3, e3⟩
      have hm3 : s3.mechSent = true := by
        have hx := (mic_preserves_fields β env s2 mic1).1
        rw [h3] at hx
        simpa [hm2] using hx
      cases e3 with
      | some e => simpa using hm3
      | none =>
        simp only
        rcases h4 : step_spnego_output β env s3 out2 mic3 with ⟨s4, out4, e4⟩
        have hm4 : s4.mechSent = true := by
          have hx := output_mechSent_mono β env s3 out2 mic3 hm3
          rw [h4] at hx
          simpa using hx
        cases e4 with
        | some e => simpa using hm4
        | none =>
          simp only
          by_cases hc : s4.complete <;> simp only [hc, Bool.false_eq_true, if_true, if_false]
          · cases s4.contextList with
            | nil => simpa using hm4
            | cons c rest => simpa using hm4
          · simpa using hm4

/-- One full `step` never clears `mechSent`. -/
theorem step_mechSent_mono (β : Type) (env : NegotiateEnv β) (s : NegotiateState β)
    (i : Option NegToken) (h : s.mechSent = true) :
    (step β env s i).1.mechSent = true :=
  step_mechSent_latch β env s i (input_mechSent_mono β env s i h)

/-- A step that emits a `NegTokenResp` carrying `supported_mech` ends with
`mech_sent` latched. -/
theorem step_sup_latches (β : Type) (env : NegotiateEnv β) (s : NegotiateState β)
    (i : Option NegToken) (o : OutToken) (hout : (step β env s i).2.1 = some o)
    (hsup : isRespWithSupportedMech o = true) :
    (step β env s i).1.mechSent = true := by
  revert hout
  unfold step
  rcases h1 : step_spnego_input β env s i with ⟨s1, tok1, mic1, e1⟩
  cases e1 with
  | some e => simp
  | none =>
    simp only
    rcases h2 : step_spnego_token β env s1 tok1 with ⟨s2, out2, e2⟩
    cases e2 with
    | some e => simp
    | none =>
      simp only
      rcases h3 : step_spnego_mic β env s2 mic1 with ⟨s3, mic3, evs3, e3⟩
      cases e3 with
      | some e => simp
      | none =>
        simp only
        rcases h4 : step_spnego_output β env s3 out2 mic3 with ⟨s4, out4, e4⟩
        cases e4 with
        | some e => simp
        | none =>
          simp only
          by_cases hc : s4.complete <;> simp only [hc, Bool.false_eq_true, if_true, if_false]
          · cases s4.contextList with
            | nil => simp
            | cons c rest =>
              intro hout
              simp only at hout
              have hx := output_sup_emission β env s3 out2 mic3 o (by rw [h4]; simpa using hout)
                hsup
              rw [h4] at hx
              simpa using hx.2
          · intro hout
            have hx := output_sup_emission β env s3 out2 mic3 o (by rw [h4]; simpa using hout)
              hsup
            rw [h4] at hx
            simpa using hx.2

/-- With `mech_sent` already latched, a step never emits a `NegTokenResp`
carrying `supported_mech`. -/
theorem step_no_sup_when_mechSent (β : Type) (env : NegotiateEnv β) (s : NegotiateState β)
    (i : Option NegToken) (o : OutToken) (h : s.mechSent = true)
    (hout : (step β env s i).2.1 = some o) :
    isRespWithSupportedMech o = false := by
  by_contra hsup
  rw [Bool.not_eq_false] at hsup
  revert hout
  unfold step
  rcases h1 : step_spnego_input β env s i with ⟨s1, tok1, mic1, e1⟩
  have hm1 : s1.mechSent = true := by
    have hx := input_mechSent_mono β env s i h
    rw [h1] at hx
    simpa using hx
  cases e1 with
  | some e => simp
  | none =>
    simp only
    rcases h2 : step_spnego_token β env s1 tok1 with ⟨s2, out2, e2⟩
    have hm2 : s2.mechSent = true := by
      have hx := (token_preserves_fields β env s1 tok1).2.2.2.1
      rw [h2] at hx
      simpa [hm1] using hx
    cases e2 with
    | some e => simp
    | none =>
      simp only
      rcases h3 : step_spnego_mic β env s2 mic1 with ⟨s3, mic3, evs3, e3⟩
      have hm3 : s3.mechSent = true := by
        have hx := (mic_preserves_fields β env s2 mic1).1
        rw [h3] at hx
        simpa [hm2] using hx
      cases e3 with
      | some e => simp
      | none =>
        simp only
        rcases h4 : step_spnego_output β env s3 out2 mic3 with ⟨s4, out4, e4⟩
        cases e4 with
        | some e => simp
        | none =>
          simp only
          have hnosup : out4 ≠ some o := by
            intro hx
            subst hx
            have hy := output_sup_emission β env s3 out2 mic3 o (by rw [h4]) hsup
            rw [hm3] at hy
            exact absurd hy.1 (by simp)
          by_cases hc : s4.complete <;> simp only [hc, Bool.false_eq_true, if_true, if_false]
          · cases s4.contextList with
            | nil => simp
            | cons c rest =>
              intro hout
              exact hnosup (by simpa using hout)
          · intro hout
            exact hnosup (by simpa using hout)

/-- With `mech_sent` latched, no later step of the run emits
`supported_mech`. -/
theorem runSteps_sup_zero (β : Type) (env : NegotiateEnv β)
    (inputs : List (Option NegToken)) (s : NegotiateState β) (h : s.mechSent = true) :
    countSupportedMech (runSteps β env s inputs).2 = 0 := by
  induction inputs generalizing s with
  | nil => simp [runSteps, countSupportedMech]
  | cons i is ih =>
    unfold runSteps
    rcases hs : step β env s i with ⟨s1, out1, e1⟩
    have hm1 : s1.mechSent = true := by
      have hx := step_mechSent_mono β env s i h
      rw [hs] at hx
      simpa using hx
    have hrec := ih s1 hm1
    rcases hr : runSteps β env s1 is with ⟨sf, outs⟩
    rw [hr] at hrec
    simp only at hrec
    simp only [hr]
    cases out1 with
    | none => simpa [countSupportedMech] using hrec
    | some o =>
      have hno : isRespWithSupportedMech o = false :=
        step_no_sup_when_mechSent β env s i o h (by rw [hs])
      simp only [countSupportedMech, List.countP_append, List.countP_cons] at hrec ⊢
      simp [hno, hrec]

/-- Any run emits `supported_mech` at most once. -/
theorem runSteps_sup_le_one (β : Type) (env : NegotiateEnv β)
    (inputs : List (Option NegToken)) (s : NegotiateState β) :
    countSupportedMech (runSteps β env s inputs).2 ≤ 1 := by
  induction inputs generalizing s with
  | nil => simp [runSteps, countSupportedMech]
  | cons i is ih =>
    unfold runSteps
    rcases hs : step β env s i with ⟨s1, out1, e1⟩
    rcases hr : runSteps β env s1 is with ⟨sf, outs⟩
    simp only [hr]
    cases out1 with
    | none =>
      have hrec := ih s1
      rw [hr] at hrec
      simpa [countSupportedMech] using hrec
    | some o =>
      by_cases hsup : isRespWithSupportedMech o = true
      · have hm1 : s1.mechSent = true := by
          have hx := step_sup_latches β env s i o (by rw [hs]) hsup
          rw [hs] at hx
          simpa using hx
        have hz := runSteps_sup_zero β env is s1 hm1
        rw [hr] at hz
        simp only at hz
        simp only [countSupportedMech, List.countP_append, List.countP_cons] at hz ⊢
        simp [hsup, hz]
      · rw [Bool.not_eq_true] at hsup
        have hrec := ih s1
        rw [hr] at hrec
        simp only at hrec
        simp only [countSupportedMech, List.countP_append, List.countP_cons] at hrec ⊢
        simpa [hsup] using hrec

/-- C4: in every run of the state machine from its initial state,
`supported_mech` is set in at most one emitted `NegTokenResp`; once
`mech_sent` is latched no later packed `NegTokenResp` carries it; and
receiving a (truthy) `supported_mech` from the peer latches `mech_sent`, so
everything the initiator packs afterwards has `supported_mech` absent. -/
theorem c4_supported_mech_once (β : Type) (env : NegotiateEnv β) (usage : Usage)
    (inputs tail : List (Option NegToken)) (s : NegotiateState β)
    (ns : Option NegState) (sup : Option Oid) (tok mic : Option Bytes) :
    countSupportedMech (runSteps β env (initialState β usage) inputs).2 ≤ 1 ∧
    (s.mechSent = true → countSupportedMech (runSteps β env s tail).2 = 0) ∧
    (truthyOid sup = true →
      (step β env s (some (.resp ns sup tok mic))).1.mechSent = true) :=
  ⟨runSteps_sup_le_one β env inputs (initialState β usage),
   fun h => runSteps_sup_zero β env tail s h,
   fun h => step_mechSent_latch β env s (some (.resp ns sup tok mic))
     (input_sup_sets_mechSent β env s ns sup tok mic h)⟩

/-- Closed instance of `c4_supported_mech_once` on a two-step initiator run
over the NTLM-only environment, with a latched state and a received
`supported_mech`. -/
theorem c4_supported_mech_once_witness :
    (countSupportedMech (runSteps Nat ntlmOnlyEnv (initialState Nat .initiate)
        [none, some (.resp (some .accept_incomplete) none (some [9]) none)]).2 ≤ 1 ∧
      (({ initialState Nat .initiate with mechSent := true } :
          NegotiateState Nat).mechSent = true →
        countSupportedMech (runSteps Nat ntlmOnlyEnv
          { initialState Nat .initiate with mechSent := true } [none]).2 = 0) ∧
      (truthyOid (some "1.3.6.1.4.1.311.2.2.10") = true →
        (step Nat ntlmOnlyEnv { initialState Nat .initiate with mechSent := true }
          (some (.resp (some .accept_incomplete) (some "1.3.6.1.4.1.311.2.2.10")
            (some [9]) none))).1.mechSent = true)) ∧
    truthyOid (some "1.3.6.1.4.1.311.2.2.10") = true ∧
    ({ initialState Nat .initiate with mechSent := true } :
      NegotiateState Nat).mechSent = true :=
  ⟨c4_supported_mech_once Nat ntlmOnlyEnv .initiate
      [none, some (.resp (some .accept_incomplete) none (some [9]) none)] [none]
      { initialState Nat .initiate with mechSent := true }
      (some .accept_incomplete) (some "1.3.6.1.4.1.311.2.2.10") (some [9]) none,
    by decide, rfl⟩

/-- C1 (amended): for a well-behaved backend (verify succeeds only on a
complete sub-context, completion survives a crypto reset), a step that takes
an incomplete outer state to `complete` *without* receiving
`neg_state = accept_complete` — i.e. completion through the MIC phase or the
`accept_complete` emission of phase 4 — ends with the active sub-context
complete and, when `mic_required` is set, with both `mic_sent` and
`mic_recv` set.  The unamended claim fails because phase 1 sets `_complete`
unconditionally on a received `accept_complete` (`negotiate.py:163`–`164`);
see the counterexample. -/
theorem c1_complete_invariant (β : Type) (env : NegotiateEnv β) (s : NegotiateState β)
    (i : Option NegToken) (hwb : WellBehaved β env.ops)
    (hpre : s.complete = false)
    (hns : negStateOf i ≠ some NegState.accept_complete)
    (hcomp : (step β env s i).1.complete = true) :
    activeComplete β env (step β env s i).1 = true ∧
    ((step β env s i).1.micRequired = true →
      (step β env s i).1.micSent = true ∧ (step β env s i).1.micRecv = true) := by
  revert hcomp
  unfold step
  rcases h1 : step_spnego_input β env s i with ⟨s1, tok1, mic1, e1⟩
  have hc1 : s1.complete = false := by
    rcases input_complete_cases β env s i with hx | hx
    · rw [h1] at hx
      simpa [hpre] using hx
    · exact absurd hx.1 hns
  cases e1 with
  | some e =>
    intro hcomp
    exact absurd (by simpa using hcomp) (by simp [hc1])
  | none =>
    simp only
    rcases h2 : step_spnego_token β env s1 tok1 with ⟨s2, out2, e2⟩
    have hc2 : s2.complete = false := by
      have hx := (token_preserves_fields β env s1 tok1).1
      rw [h2] at hx
      simpa [hc1] using hx
    cases e2 with
    | some e =>
      intro hcomp
      exact absurd (by simpa using hcomp) (by simp [hc2])
    | none =>
      simp only
      rcases h3 : step_spnego_mic β env s2 mic1 with ⟨s3, mic3, evs3, e3⟩
      cases e3 with
      | some e =>
        intro hcomp
        have hx := mic_err_complete β env s2 mic1 e (by rw [h3])
        rw [h3] at hx
        simp only at hx
        exact absurd (by simpa using hcomp) (by simp [hx, hc2])
      | none =>
        simp only
        rcases h4 : step_spnego_output β env s3 out2 mic3 with ⟨s4, out4, e4⟩
        cases e4 with
        | some e =>
          intro hcomp
          have hx := output_err_not_complete β env s3 out2 mic3 e (by rw [h4])
          rw [h4] at hx
          have hx2 : s4.complete = false := hx.2
          exact absurd (by simpa using hcomp) (by simp [hx2])
        | none =>
          simp only
          by_cases hc4 : s4.complete
          · -- completion happened in phase 3 or phase 4; derive the facts
            have hpres := output_preserves_fields β env s3 out2 mic3
            rw [h4] at hpres
            simp only at hpres
            obtain ⟨hctx43, hms43, hmr43, hmq43, _, _⟩ := hpres
            have herr3 : (step_spnego_mic β env s2 mic1).2.2.2 = none := by rw [h3]
            have hact4 : activeComplete β env s4 = true ∧
                (s4.micRequired = true → s4.micSent = true ∧ s4.micRecv = true) := by
              have hsrc := output_complete_sources β env s3 out2 mic3 (by rw [h4]; exact hc4)
              rcases hsrc with hs3c | ⟨hact3, himp3⟩
              · have hmic := mic_complete_sources β env s2 mic1 hwb herr3
                  (by rw [h3]; exact hs3c)
                rcases hmic with hs2c | ⟨hact3m, hms3, hmr3⟩
                · exact absurd hs2c (by simp [hc2])
                · rw [h3] at hact3m hms3 hmr3
                  simp only at hact3m hms3 hmr3
                  refine ⟨?_, fun _ => ⟨by rw [hms43, hms3], by rw [hmr43, hmr3]⟩⟩
                  rw [activeComplete_congr β env s4 s3 hctx43]
                  exact hact3m
              · constructor
                · rw [activeComplete_congr β env s4 s3 hctx43]
                  exact hact3
                · intro hreq
                  have hms3 : s3.micSent = true := by
                    have hx := mic_required_implies_sent β env s2 mic1 herr3
                      (by rw [h3]; simp only; rw [← hmq43]; exact hreq)
                    rw [h3] at hx
                    simpa using hx
                  exact ⟨by rw [hms43]; exact hms3,
                    by rw [hmr43]; exact himp3 (by rw [← hms43] at hms3; rw [← hms43]; exact hms3)⟩
            simp only [hc4, if_true]
            cases hl : s4.contextList with
            | nil =>
              exfalso
              have hx := hact4.1
              unfold activeComplete at hx
              rw [hl] at hx
              simp at hx
            | cons c rest =>
              intro _
              constructor
              · have hx := hact4.1
                unfold activeComplete at hx ⊢
                rw [hl] at hx
                simpa using hx
              · intro hreq
                exact hact4.2 (by simpa using hreq)
          · intro hcomp
            rw [if_neg hc4] at hcomp
            exact absurd (by simpa using hcomp) hc4

/-- A mid-handshake initiator state over a complete sub-context, used to
instantiate the repaired completion invariant. -/
def midHandshakeState : NegotiateState Nat :=
  { usage := .initiate
    complete := false
    contextList := [(GSSMech.ntlm, 0, none)]
    mechList := [GSSMech.ntlm.value]
    initSent := true
    mechSent := true
    micSent := false
    micRecv := false
    micRequired := false }

/-- An `accept_incomplete` reply carrying a response token. -/
def incompleteReply : Option NegToken :=
  some (.resp (some .accept_incomplete) none (some [9]) none)

/-- Closed instance of `c1_complete_invariant`: over the always-complete
backend, the step from `midHandshakeState` on `incompleteReply` completes
through the phase-4 `accept_complete` emission, and the invariant holds
there. -/
theorem c1_complete_invariant_witness :
    WellBehaved Nat alwaysCompleteEnv.ops ∧
    midHandshakeState.complete = false ∧
    negStateOf incompleteReply ≠ some NegState.accept_complete ∧
    (step Nat alwaysCompleteEnv midHandshakeState incompleteReply).1.complete = true ∧
    (activeComplete Nat alwaysCompleteEnv
        (step Nat alwaysCompleteEnv midHandshakeState incompleteReply).1 = true ∧
      ((step Nat alwaysCompleteEnv midHandshakeState incompleteReply).1.micRequired = true →
        (step Nat alwaysCompleteEnv midHandshakeState incompleteReply).1.micSent = true ∧
        (step Nat alwaysCompleteEnv midHandshakeState incompleteReply).1.micRecv = true)) :=
  ⟨⟨fun _ _ _ _ => rfl, fun _ _ _ => rfl⟩, rfl, by decide, rfl,
    c1_complete_invariant Nat alwaysCompleteEnv midHandshakeState incompleteReply
      ⟨fun _ _ _ _ => rfl, fun _ _ _ => rfl⟩ rfl (by decide) rfl⟩

/-- The `one_required` construction loop never itself raises
`NoCommonMechanism` when the NTLM builder does not. -/
theorem buildFirst_no_common (β : Type) (env : NegotiateEnv β) (inToken : Option Bytes)
    (hntlm : ∀ t, env.buildNtlm t ≠ .error SpnegoError.noCommonMechanism)
    (mechs : List GSSMech) :
    (buildFirstContext β env mechs inToken).2 ≠ some .noCommonMechanism := by
  induction mechs with
  | nil => simp [buildFirstContext]
  | cons m rest ih =>
    unfold buildFirstContext
    by_cases hmem : m.protocolName ∈ env.gssapiProtocols.filter (fun p => p ≠ "negotiate")
    · simp only [hmem, if_true]
      cases hg : env.buildGssapi m.protocolName inToken with
      | none => exact ih
      | some ctx => obtain ⟨c, t⟩ := ctx; simp
    · simp only [hmem, if_false]
      cases hn : env.buildNtlm inToken with
      | error e =>
        have := hntlm inToken
        rw [hn] at this
        simp only
        intro hx
        rw [Option.some_inj] at hx
        subst hx
        exact this rfl
      | ok ctx => obtain ⟨c, t⟩ := ctx; simp

/-- C3 (amended): when `_rebuild_context_list` is given a non-empty offered
mech list (and the NTLM backend never raises `NoCommonMechanism` itself),
it raises `NoCommonMechanism` exactly when the intersection of the offered
list with the locally available mechanisms is empty — a check made *before*
any backend is built; and a GSSAPI candidate whose build raises is skipped,
the loop moving on to the next candidate.  The unamended claim fails
because, when every chosen candidate's build fails, the call returns
normally with an empty candidate list (see the counterexample). -/
theorem c3_rebuild_skip_and_no_common (β : Type) (env : NegotiateEnv β)
    (mechList : List Oid) (inToken : Option Bytes)
    (hne : mechList ≠ [])
    (hntlm : ∀ t, env.buildNtlm t ≠ .error SpnegoError.noCommonMechanism) :
    ((rebuild_context_list β env mechList inToken).err = some .noCommonMechanism ↔
      chosenMechs (availableMechs env.gssapiProtocols) mechList = []) ∧
    (∀ (m : GSSMech) (rest : List GSSMech),
      m.protocolName ∈ env.gssapiProtocols.filter (fun p => p ≠ "negotiate") →
      env.buildGssapi m.protocolName inToken = none →
      buildFirstContext β env (m :: rest) inToken = buildFirstContext β env rest inToken) := by
  constructor
  · unfold rebuild_context_list
    have hl : mechList.isEmpty = false := by
      cases mechList with
      | nil => exact absurd rfl hne
      | cons a as => rfl
    simp only [hl, Bool.false_eq_true, if_false]
    by_cases hch : (chosenMechs (availableMechs env.gssapiProtocols) mechList).isEmpty
    · simp only [hch, if_true]
      constructor
      · intro _
        simpa using hch
      · intro _
        trivial
    · simp only [hch, Bool.false_eq_true, if_false]
      constructor
      · intro hx
        exfalso
        rcases hb : buildFirstContext β env
            (chosenMechs (availableMechs env.gssapiProtocols) mechList) inToken with ⟨ctxs, e⟩
        rw [hb] at hx
        cases e with
        | none => simp at hx
        | some err =>
          simp only at hx
          rw [Option.some_inj] at hx
          subst hx
          have := buildFirst_no_common β env inToken hntlm
            (chosenMechs (availableMechs env.gssapiProtocols) mechList)
          rw [hb] at this
          exact this rfl
      · intro hx
        exfalso
        rw [hx] at hch
        simp at hch
  · intro m rest hmem hfail
    conv_lhs => unfold buildFirstContext
    rw [if_pos hmem, hfail]

/-- Closed instance of `c3_rebuild_skip_and_no_common` over
`kerberosFailsEnv` and the Kerberos-only offer. -/
theorem c3_rebuild_skip_and_no_common_witness :
    ((["1.2.840.113554.1.2.2"] : List Oid) ≠ []) ∧
    (∀ t, kerberosFailsEnv.buildNtlm t ≠ .error SpnegoError.noCommonMechanism) ∧
    (((rebuild_context_list Nat kerberosFailsEnv ["1.2.840.113554.1.2.2"] none).err =
        some .noCommonMechanism ↔
      chosenMechs (availableMechs kerberosFailsEnv.gssapiProtocols)
        ["1.2.840.113554.1.2.2"] = []) ∧
    (∀ (m : GSSMech) (rest : List GSSMech),
      m.protocolName ∈ kerberosFailsEnv.gssapiProtocols.filter (fun p => p ≠ "negotiate") →
      kerberosFailsEnv.buildGssapi m.protocolName none = none →
      buildFirstContext Nat kerberosFailsEnv (m :: rest) none =
        buildFirstContext Nat kerberosFailsEnv rest none)) :=
  ⟨by decide, fun t => by simp [kerberosFailsEnv, ntlmOnlyEnv],
    c3_rebuild_skip_and_no_common Nat kerberosFailsEnv ["1.2.840.113554.1.2.2"] none
      (by decide) (fun t => by simp [kerberosFailsEnv, ntlmOnlyEnv])⟩

end Spnego
